import Mathlib

/-!
Verification of the cinesense-pro watchlist synchronization subsystem
(`src/hooks/useWatchlistSync.ts`) and recommendation engine
(`src/lib/recommendation.ts`), as a shallow embedding in Lean 4.

Conventions:
* JS numbers holding ids and epoch-millisecond timestamps are embedded as `Int`
  (they stay in the exact-integer range of doubles).
* JS numbers holding ratings/scores are embedded as `ℚ` (the arithmetic here is
  on small decimal constants where double rounding does not change any of the
  comparisons the program makes).
* A JS `Map` (insertion-ordered, `set` on an existing key replaces the value in
  place) is embedded as an association list of its values in insertion order.
* `Array.prototype.sort` with comparator `(a, b) => b.addedAt - a.addedAt` is a
  stable sort by `addedAt` descending; it is embedded as `List.insertionSort`
  with the relation `fun a b => b.addedAt ≤ a.addedAt`, which is the stable
  descending insertion sort.
-/

namespace CineSense

/-- A catalog movie as handed to the watchlist operations (`TMDBMovie` in
`src/api/tmdb.ts`).  `payload` stands for all the fields the watchlist logic
carries around but never inspects (title, poster path, …). -/
structure TMDBMovie where
  id : Int
  payload : Nat
deriving DecidableEq, Repr

/-- The `WatchlistItem` of `useWatchlistSync.ts`: a `TMDBMovie` plus `addedAt`. -/
structure WatchlistItem where
  id : Int
  payload : Nat
  addedAt : Int
deriving DecidableEq, Repr

/-- Spreading `{ ...movie, addedAt: now }`. -/
def mkItem (m : TMDBMovie) (now : Int) : WatchlistItem :=
  ⟨m.id, m.payload, now⟩

/-- The comparator order of `sort((a, b) => b.addedAt - a.addedAt)`:
`a` may come before `b` iff `b.addedAt ≤ a.addedAt`. -/
def byAddedAtDesc (a b : WatchlistItem) : Prop :=
  b.addedAt ≤ a.addedAt

instance : DecidableRel byAddedAtDesc :=
  fun a b => inferInstanceAs (Decidable (b.addedAt ≤ a.addedAt))

instance : IsTotal WatchlistItem byAddedAtDesc :=
  ⟨fun a b => (le_total b.addedAt a.addedAt).imp id id⟩

instance : IsTrans WatchlistItem byAddedAtDesc :=
  ⟨fun _ _ _ hab hbc => le_trans hbc hab⟩

/-- The final `.sort((a, b) => b.addedAt - a.addedAt)`: stable descending sort
by `addedAt`. -/
def sortByAddedAtDesc (l : List WatchlistItem) : List WatchlistItem :=
  l.insertionSort byAddedAtDesc

/-- Model of `merged.set(item.id, item)` on the insertion-ordered map: replace in place
if the id is present, otherwise append. -/
def mapSet (m : List WatchlistItem) (v : WatchlistItem) : List WatchlistItem :=
  if m.any (fun x => x.id == v.id) then
    m.map (fun x => if x.id == v.id then v else x)
  else
    m ++ [v]

/-- Model of `merged.has(k)`. -/
def mapHas (m : List WatchlistItem) (k : Int) : Bool :=
  m.any (fun x => x.id == k)

/-- The second loop of `mergeWatchlists`: insert every cloud item whose id is
not already present, in order. -/
def addCloud (m : List WatchlistItem) (cloud : List WatchlistItem) : List WatchlistItem :=
  cloud.foldl (fun m item => if mapHas m item.id then m else m ++ [item]) m

/-- The function `mergeWatchlists(local, cloud)` of `useWatchlistSync.ts` lines 24–40:
insert all local items into an id-keyed insertion-ordered map, then all cloud
items whose id is absent, then sort the values by `addedAt` descending. -/
def mergeWatchlists (localW cloud : List WatchlistItem) : List WatchlistItem :=
  let m1 := localW.foldl mapSet []
  let m2 := addCloud m1 cloud
  sortByAddedAtDesc m2

/-- The synchronizer state: the in-memory `watchlist` React state, the
localStorage blob under `movie-watchlist` (as a parsed list), and the
`syncing` flag. -/
structure SyncState where
  watchlist : List WatchlistItem
  store : List WatchlistItem
  syncing : Bool
deriving DecidableEq, Repr

/-- Operation `addToWatchlist(movie)` at time `now`: no-op if the id is present,
otherwise append `{ ...movie, addedAt: now }` at the end and persist. -/
def addToWatchlist (m : TMDBMovie) (now : Int) (st : SyncState) : SyncState :=
  if st.watchlist.any (fun item => item.id == m.id) then st
  else
    let newList := st.watchlist ++ [mkItem m now]
    { st with watchlist := newList, store := newList }

/-- Operation `removeFromWatchlist(movieId)`: filter out the matching id and persist. -/
def removeFromWatchlist (movieId : Int) (st : SyncState) : SyncState :=
  let newList := st.watchlist.filter (fun item => item.id != movieId)
  { st with watchlist := newList, store := newList }

/-- Operation `isInWatchlist(movieId)`. -/
def isInWatchlist (movieId : Int) (st : SyncState) : Bool :=
  st.watchlist.any (fun item => item.id == movieId)

/-- Operation `toggleWatchlist(movie)`: remove and return `false` ("removed") when
present, add and return `true` ("added") when absent. -/
def toggleWatchlist (m : TMDBMovie) (now : Int) (st : SyncState) : Bool × SyncState :=
  if isInWatchlist m.id st then (false, removeFromWatchlist m.id st)
  else (true, addToWatchlist m now st)

/-- Operation `clearWatchlist()`. -/
def clearWatchlist (st : SyncState) : SyncState :=
  { st with watchlist := [], store := [] }

/-- Outcome of `getDoc` on the user's document during the identity-change
sync: the fetch succeeds with a document (`ok (some l)` — its `watchlist`
field, `[]` if missing), succeeds finding no document (`ok none`), or
throws (`failure`). -/
inductive FetchResult where
  | ok (doc : Option (List WatchlistItem))
  | failure
deriving DecidableEq, Repr

/-- The effect of `loadAndMerge` (lines 43–74), run for a non-null user: on a successful
fetch, read the local store, treat a missing document as an empty cloud list,
merge, write the result to state and store; on a thrown fetch, the `catch`
only logs and keeps local data; `finally` clears `syncing` either way. -/
def loadAndMerge (st : SyncState) (fetch : FetchResult) : SyncState :=
  match fetch with
  | .ok doc =>
      let localWatchlist := st.store
      let cloudWatchlist := doc.getD []
      let merged := mergeWatchlists localWatchlist cloudWatchlist
      { watchlist := merged, store := merged, syncing := false }
  | .failure => { st with syncing := false }

/-- One user-visible operation of the synchronizer. -/
inductive WOp where
  | add (m : TMDBMovie) (now : Int)
  | remove (movieId : Int)
  | toggle (m : TMDBMovie) (now : Int)
  | clear
  | identityChange (fetch : FetchResult)
deriving Repr

/-- Step function of the synchronizer. -/
def step (op : WOp) (st : SyncState) : SyncState :=
  match op with
  | .add m now => addToWatchlist m now st
  | .remove movieId => removeFromWatchlist movieId st
  | .toggle m now => (toggleWatchlist m now st).2
  | .clear => clearWatchlist st
  | .identityChange fetch => loadAndMerge st fetch

/-- The raw localStorage blob: either a string `JSON.parse` turns into a
watchlist, or one on which it throws. -/
inductive StoredBlob where
  | parseable (l : List WatchlistItem)
  | malformed
deriving DecidableEq, Repr

/-- Model of `JSON.parse` on a stored blob; `.error` is a thrown exception. -/
def jsonParse : StoredBlob → Except Unit (List WatchlistItem)
  | .parseable l => .ok l
  | .malformed => .error ()

/-- The `useState` initializer (lines 14–20): `stored ? JSON.parse(stored) : []`
with no surrounding try/catch, so a parse exception propagates. -/
def initWatchlist (stored : Option StoredBlob) : Except Unit (List WatchlistItem) :=
  match stored with
  | some s => jsonParse s
  | none => .ok []

/-- At most one entry per id. -/
def uniqueIds (l : List WatchlistItem) : Prop :=
  (l.map (fun x => x.id)).Nodup

instance : DecidablePred uniqueIds :=
  fun _ => List.nodupDecidable _

/-- Sorted by `addedAt` descending (non-strict pairwise). -/
def sortedDesc (l : List WatchlistItem) : Prop :=
  l.Pairwise byAddedAtDesc

instance : DecidablePred sortedDesc :=
  fun _ => List.instDecidablePairwise _

/-! ## Recommendation engine (`src/lib/recommendation.ts`) -/

/-- A catalog entry of the static dataset (`Movie` in `src/data/moviesData.ts`),
restricted to the fields `recommendation.ts` reads. -/
structure Movie where
  id : Int
  title : String
  genre : List String
  mood_tags : List String
  rating : ℚ
  language : String
  release_year : Int
  runtime : Int
  actors : List String
  director : String
  awards : List String
deriving DecidableEq, Repr

/-- The `runtime` bucket of the filters. -/
inductive RuntimeFilter where
  | short
  | long
  | any
deriving DecidableEq, Repr

/-- The `RecommendationFilters` record; `yearRange` is flattened into `yearMin`/`yearMax`
(in the source it is a required object, so the year-range filter always
applies). -/
structure RecommendationFilters where
  genres : List String
  moods : List String
  minRating : ℚ
  language : String
  yearMin : Int
  yearMax : Int
  runtime : RuntimeFilter
  searchQuery : String
deriving DecidableEq, Repr

/-- The `ScoredMovie` record: a movie plus `score` and `matchReasons`. -/
structure ScoredMovie where
  movie : Movie
  score : ℚ
  matchReasons : List String
deriving DecidableEq, Repr

/-- Model of `s.toLowerCase()`; mapped over the character data so that it evaluates by
kernel reduction (the tags and codes involved are ASCII). -/
def strToLower (s : String) : String :=
  String.mk (s.data.map Char.toLower)

def calculateGenreScore (movie : Movie) (selectedGenres : List String) : ℚ :=
  if selectedGenres.length = 0 then 1
  else
    ((movie.genre.filter (fun g => selectedGenres.contains (strToLower g))).length : ℚ) /
      (selectedGenres.length : ℚ)

def calculateMoodScore (movie : Movie) (selectedMoods : List String) : ℚ :=
  if selectedMoods.length = 0 then 1
  else
    ((movie.mood_tags.filter (fun m => selectedMoods.contains (strToLower m))).length : ℚ) /
      (selectedMoods.length : ℚ)

def calculateRatingScore (rating : ℚ) : ℚ :=
  rating / 10

/-- Recency decay; `new Date().getFullYear()` is made an explicit `currentYear` parameter. -/
def calculateRecencyScore (currentYear : Int) (year : Int) : ℚ :=
  let age : ℚ := ((currentYear - year : Int) : ℚ)
  max 0 (1 - age / 50)

def calculateAwardsScore (awards : List String) : ℚ :=
  if awards.length ≥ 3 then 1
  else if awards.length ≥ 2 then 8/10
  else if awards.length ≥ 1 then 6/10
  else 3/10

/-- Whether `needle` occurs as a contiguous run inside `haystack`. -/
def listIsInfixOf (needle : List Char) : List Char → Bool
  | [] => needle.isPrefixOf []
  | b :: bs => needle.isPrefixOf (b :: bs) || listIsInfixOf needle bs

/-- Model of `s.includes(q)` on strings, via character lists. -/
def strIncludes (s q : String) : Bool :=
  listIsInfixOf q.toList s.toList

/-- The genre hard filter's predicate (lines 57–61):
`movie.genre.some(g => filters.genres.includes(g.toLowerCase()))`. -/
def genreFilterPass (filters : RecommendationFilters) (movie : Movie) : Bool :=
  movie.genre.any (fun g => filters.genres.contains (strToLower g))

/-- The hard-filter stages after the genre stage (lines 63–95), applied in
source order; the `yearRange` object is always truthy so that filter always
runs. -/
def hardFilterRest (filters : RecommendationFilters) (fm1 : List Movie) : List Movie :=
  let fm2 := if filters.minRating > 0 then
      fm1.filter (fun m => filters.minRating ≤ m.rating) else fm1
  let fm3 := if filters.language ≠ "" ∧ filters.language ≠ "all" then
      fm2.filter (fun m => strToLower m.language == strToLower filters.language) else fm2
  let fm4 := fm3.filter (fun m =>
      filters.yearMin ≤ m.release_year ∧ m.release_year ≤ filters.yearMax)
  let fm5 := if filters.runtime ≠ RuntimeFilter.any then
      fm4.filter (fun m =>
        match filters.runtime with
        | .short => decide (m.runtime < (120 : Int))
        | .long => decide ((120 : Int) ≤ m.runtime)
        | .any => true)
      else fm4
  let fm6 := if filters.searchQuery ≠ "" then
      fm5.filter (fun m =>
        strIncludes (strToLower m.title) (strToLower filters.searchQuery) ||
        m.actors.any (fun a => strIncludes (strToLower a) (strToLower filters.searchQuery)) ||
        strIncludes (strToLower m.director) (strToLower filters.searchQuery))
      else fm5
  fm6

/-- The full hard-filter pipeline of `getRecommendations` (lines 54–95): the
genre stage (applied only when some genres are selected), then the rest. -/
def hardFilter (filters : RecommendationFilters) (movies : List Movie) : List Movie :=
  hardFilterRest filters
    (if filters.genres.length > 0 then movies.filter (genreFilterPass filters) else movies)

/-- Scoring and match-reason assignment (lines 98–119). The five reasons are
pushed in fixed source order, each under its own independent condition; the
thresholds compare the already-weighted subscores. -/
def scoreMovie (filters : RecommendationFilters) (currentYear : Int) (movie : Movie) :
    ScoredMovie :=
  let genreScore := calculateGenreScore movie filters.genres * (3/10)
  let moodScore := calculateMoodScore movie filters.moods * (25/100)
  let ratingScore := calculateRatingScore movie.rating * (25/100)
  let recencyScore := calculateRecencyScore currentYear movie.release_year * (1/10)
  let awardsScore := calculateAwardsScore movie.awards * (1/10)
  let totalScore := genreScore + moodScore + ratingScore + recencyScore + awardsScore
  let matchReasons : List String :=
    (if genreScore > 15/100 then ["Genre match"] else []) ++
    (if moodScore > 12/100 then ["Mood match"] else []) ++
    (if (85/10 : ℚ) ≤ movie.rating then ["Highly rated"] else []) ++
    (if movie.awards.length > 0 then ["Award winning"] else []) ++
    (if (2020 : Int) ≤ movie.release_year then ["Recent release"] else [])
  ⟨movie, totalScore, matchReasons⟩

/-- The comparator order of `sort((a, b) => b.score - a.score)`. -/
def byScoreDesc (a b : ScoredMovie) : Prop :=
  b.score ≤ a.score

instance : DecidableRel byScoreDesc :=
  fun a b => inferInstanceAs (Decidable (b.score ≤ a.score))

instance : IsTotal ScoredMovie byScoreDesc :=
  ⟨fun a b => (le_total b.score a.score).imp id id⟩

instance : IsTrans ScoredMovie byScoreDesc :=
  ⟨fun _ _ _ hab hbc => le_trans hbc hab⟩

/-- The function `getRecommendations(filters)` (lines 53–125).  The source closes over the
module-level static catalog `moviesData` and the wall clock; both are explicit
parameters here. -/
def getRecommendations (moviesData : List Movie) (currentYear : Int)
    (filters : RecommendationFilters) : List ScoredMovie :=
  let filteredMovies := hardFilter filters moviesData
  let scoredMovies := filteredMovies.map (scoreMovie filters currentYear)
  (scoredMovies.insertionSort byScoreDesc).take 10

/-! ## Lemmas on the merge map -/

theorem mapHas_iff {m : List WatchlistItem} {k : Int} :
    mapHas m k = true ↔ ∃ x ∈ m, x.id = k := by
  simp [mapHas, List.any_eq_true]

theorem mapHas_of_perm {m m' : List WatchlistItem} {k : Int} (h : m.Perm m') :
    mapHas m k = mapHas m' k := by
  rcases hm : mapHas m' k with _ | _
  · rcases hm2 : mapHas m k with _ | _
    · rfl
    · rw [mapHas_iff] at hm2
      obtain ⟨x, hx, hxk⟩ := hm2
      have : mapHas m' k = true := mapHas_iff.mpr ⟨x, h.mem_iff.mp hx, hxk⟩
      rw [this] at hm; exact hm
  · rw [mapHas_iff] at hm ⊢
    obtain ⟨x, hx, hxk⟩ := hm
    exact ⟨x, h.mem_iff.mpr hx, hxk⟩

/-- Inserting a run of fresh-id items into the map appends them in order. -/
theorem foldl_mapSet_of_nodup (L : List WatchlistItem) :
    ∀ m : List WatchlistItem,
      ((m ++ L).map (fun x => x.id)).Nodup →
      L.foldl mapSet m = m ++ L := by
  induction L with
  | nil => intro m _; simp
  | cons a L ih =>
    intro m h
    have hnotin : a.id ∉ m.map (fun x => x.id) := by
      rw [List.map_append, List.nodup_append] at h
      intro hmem
      exact h.2.2 hmem (by simp)
    have hany : m.any (fun x => x.id == a.id) = false := by
      rw [Bool.eq_false_iff]
      intro htrue
      rw [List.any_eq_true] at htrue
      obtain ⟨x, hx, hxa⟩ := htrue
      rw [beq_iff_eq] at hxa
      exact hnotin (hxa ▸ List.mem_map_of_mem (fun x => x.id) hx)
    have hset : mapSet m a = m ++ [a] := by simp [mapSet, hany]
    rw [List.foldl_cons, hset]
    have := ih (m ++ [a]) (by simpa using h)
    simpa using this

/-- With unique ids, building the map from the local list reproduces it. -/
theorem foldl_mapSet_eq_self {L : List WatchlistItem} (h : uniqueIds L) :
    L.foldl mapSet [] = L := by
  simpa using foldl_mapSet_of_nodup L [] (by simpa [uniqueIds] using h)

theorem mapSet_ids_nodup {m : List WatchlistItem} {a : WatchlistItem}
    (h : (m.map (fun x => x.id)).Nodup) :
    ((mapSet m a).map (fun x => x.id)).Nodup := by
  by_cases hc : m.any (fun x => x.id == a.id) = true
  · have : (mapSet m a).map (fun x => x.id) = m.map (fun x => x.id) := by
      simp only [mapSet, hc, if_true, List.map_map]
      apply List.map_congr_left
      intro x _
      by_cases hx : x.id = a.id
      · simp [Function.comp, hx]
      · simp [Function.comp, hx]
    rw [this]; exact h
  · have hc' : m.any (fun x => x.id == a.id) = false := by
      rwa [Bool.not_eq_true] at hc
    have hnotin : a.id ∉ m.map (fun x => x.id) := by
      intro hmem
      rw [List.mem_map] at hmem
      obtain ⟨x, hx, hxa⟩ := hmem
      have : m.any (fun y => y.id == a.id) = true :=
        List.any_eq_true.mpr ⟨x, hx, beq_iff_eq.mpr hxa⟩
      rw [this] at hc'; exact Bool.noConfusion hc'
    simp only [mapSet, hc', if_neg, Bool.false_eq_true, not_false_iff, List.map_append,
      List.map_cons, List.map_nil]
    rw [List.nodup_append]
    refine ⟨h, List.nodup_singleton _, ?_⟩
    intro y hy hy2
    have hya : y = a.id := by simpa using hy2
    exact hnotin (hya ▸ hy)

theorem foldl_mapSet_ids_nodup (L : List WatchlistItem) :
    ∀ m : List WatchlistItem, (m.map (fun x => x.id)).Nodup →
      ((L.foldl mapSet m).map (fun x => x.id)).Nodup := by
  induction L with
  | nil => intro m h; simpa using h
  | cons a L ih => intro m h; exact ih (mapSet m a) (mapSet_ids_nodup h)

/-! ## Lemmas on the cloud-insertion loop -/

theorem addCloud_cons {m : List WatchlistItem} {b : WatchlistItem}
    {cl : List WatchlistItem} :
    addCloud m (b :: cl) = addCloud (if mapHas m b.id then m else m ++ [b]) cl := by
  simp only [addCloud, List.foldl_cons]

theorem addCloud_subset_left (cloud : List WatchlistItem) :
    ∀ m : List WatchlistItem, ∀ x ∈ m, x ∈ addCloud m cloud := by
  induction cloud with
  | nil => intro m x hx; simpa [addCloud] using hx
  | cons b cl ih =>
    intro m x hx
    rw [addCloud_cons]
    by_cases hb : mapHas m b.id = true
    · simpa [hb] using ih m x hx
    · rw [Bool.not_eq_true] at hb
      simpa [hb] using ih (m ++ [b]) x (List.mem_append_left _ hx)

theorem mapHas_addCloud_mono (cloud : List WatchlistItem) :
    ∀ m : List WatchlistItem, ∀ k : Int,
      mapHas m k = true → mapHas (addCloud m cloud) k = true := by
  intro m k h
  rw [mapHas_iff] at h ⊢
  obtain ⟨x, hx, hxk⟩ := h
  exact ⟨x, addCloud_subset_left cloud m x hx, hxk⟩

theorem addCloud_mem_elim (cloud : List WatchlistItem) :
    ∀ m x, x ∈ addCloud m cloud →
      x ∈ m ∨ (x ∈ cloud ∧ mapHas m x.id = false) := by
  induction cloud with
  | nil => intro m x hx; exact Or.inl (by simpa [addCloud] using hx)
  | cons b cl ih =>
    intro m x hx
    rw [addCloud_cons] at hx
    by_cases hb : mapHas m b.id = true
    · rw [if_pos hb] at hx
      rcases ih m x hx with h | ⟨hcl, hhas⟩
      · exact Or.inl h
      · exact Or.inr ⟨List.mem_cons_of_mem b hcl, hhas⟩
    · rw [Bool.not_eq_true] at hb
      rw [if_neg (by simp [hb])] at hx
      rcases ih (m ++ [b]) x hx with h | ⟨hcl, hhas⟩
      · rcases List.mem_append.mp h with h | h
        · exact Or.inl h
        · have hxb : x = b := by simpa using h
          exact Or.inr ⟨by simp [hxb], hxb ▸ hb⟩
      · have : mapHas m x.id = false := by
          rw [Bool.eq_false_iff]
          intro htrue
          have := mapHas_iff.mp htrue
          obtain ⟨y, hy, hyk⟩ := this
          have : mapHas (m ++ [b]) x.id = true :=
            mapHas_iff.mpr ⟨y, List.mem_append_left _ hy, hyk⟩
          rw [this] at hhas; exact Bool.noConfusion hhas
        exact Or.inr ⟨List.mem_cons_of_mem b hcl, this⟩

theorem addCloud_has_of_mem (cloud : List WatchlistItem) :
    ∀ m : List WatchlistItem, ∀ b ∈ cloud, mapHas (addCloud m cloud) b.id = true := by
  induction cloud with
  | nil => intro m b hb; exact absurd hb (List.not_mem_nil b)
  | cons c cl ih =>
    intro m b hb
    rw [addCloud_cons]
    rcases List.mem_cons.mp hb with rfl | hb'
    · by_cases hc : mapHas m b.id = true
      · rw [if_pos hc]
        exact mapHas_addCloud_mono cl m b.id hc
      · rw [Bool.not_eq_true] at hc
        rw [if_neg (by simp [hc])]
        exact mapHas_addCloud_mono cl (m ++ [b]) b.id
          (mapHas_iff.mpr ⟨b, by simp, rfl⟩)
    · by_cases hc : mapHas m c.id = true
      · rw [if_pos hc]; exact ih m b hb'
      · rw [Bool.not_eq_true] at hc
        rw [if_neg (by simp [hc])]; exact ih (m ++ [c]) b hb'

theorem addCloud_eq_self (cloud : List WatchlistItem) :
    ∀ m : List WatchlistItem, (∀ b ∈ cloud, mapHas m b.id = true) →
      addCloud m cloud = m := by
  induction cloud with
  | nil => intro m _; simp [addCloud]
  | cons b cl ih =>
    intro m h
    rw [addCloud_cons, if_pos (h b (by simp))]
    exact ih m (fun c hc => h c (List.mem_cons_of_mem b hc))

theorem addCloud_ids_nodup (cloud : List WatchlistItem) :
    ∀ m : List WatchlistItem, (m.map (fun x => x.id)).Nodup →
      ((addCloud m cloud).map (fun x => x.id)).Nodup := by
  induction cloud with
  | nil => intro m h; simpa [addCloud] using h
  | cons b cl ih =>
    intro m h
    rw [addCloud_cons]
    by_cases hb : mapHas m b.id = true
    · rw [if_pos hb]; exact ih m h
    · rw [Bool.not_eq_true] at hb
      rw [if_neg (by simp [hb])]
      apply ih
      have hnotin : b.id ∉ m.map (fun x => x.id) := by
        intro hmem
        rw [List.mem_map] at hmem
        obtain ⟨x, hx, hxb⟩ := hmem
        have : mapHas m b.id = true := mapHas_iff.mpr ⟨x, hx, hxb⟩
        rw [this] at hb; exact Bool.noConfusion hb
      simp only [List.map_append, List.map_cons, List.map_nil]
      rw [List.nodup_append]
      refine ⟨h, List.nodup_singleton _, ?_⟩
      intro y hy hy2
      have hyb : y = b.id := by simpa using hy2
      exact hnotin (hyb ▸ hy)

/-! ## Lemmas on `mergeWatchlists` -/

theorem mergeWatchlists_perm (A B : List WatchlistItem) :
    (mergeWatchlists A B).Perm (addCloud (A.foldl mapSet []) B) := by
  simpa [mergeWatchlists, sortByAddedAtDesc] using
    List.perm_insertionSort byAddedAtDesc (addCloud (A.foldl mapSet []) B)

theorem mem_mergeWatchlists {A B : List WatchlistItem} {x : WatchlistItem} :
    x ∈ mergeWatchlists A B ↔ x ∈ addCloud (A.foldl mapSet []) B :=
  (mergeWatchlists_perm A B).mem_iff

theorem mergeWatchlists_uniqueIds (A B : List WatchlistItem) :
    uniqueIds (mergeWatchlists A B) := by
  have h2 : ((addCloud (A.foldl mapSet []) B).map (fun x => x.id)).Nodup :=
    addCloud_ids_nodup B _ (foldl_mapSet_ids_nodup A [] (by simp))
  have hp := (mergeWatchlists_perm A B).map (fun x => x.id)
  exact (hp.nodup_iff).mpr h2

theorem mergeWatchlists_sortedDesc (A B : List WatchlistItem) :
    sortedDesc (mergeWatchlists A B) :=
  List.sorted_insertionSort byAddedAtDesc (addCloud (A.foldl mapSet []) B)

/-! ## State-machine helper lemmas -/

theorem uniqueIds_append_fresh {l : List WatchlistItem} {a : WatchlistItem}
    (h : uniqueIds l) (ha : l.any (fun x => x.id == a.id) = false) :
    uniqueIds (l ++ [a]) := by
  have hnotin : a.id ∉ l.map (fun x => x.id) := by
    intro hmem
    rw [List.mem_map] at hmem
    obtain ⟨x, hx, hxa⟩ := hmem
    have : l.any (fun y => y.id == a.id) = true :=
      List.any_eq_true.mpr ⟨x, hx, beq_iff_eq.mpr hxa⟩
    rw [this] at ha; exact Bool.noConfusion ha
  unfold uniqueIds at h ⊢
  simp only [List.map_append, List.map_cons, List.map_nil]
  rw [List.nodup_append]
  refine ⟨h, List.nodup_singleton _, ?_⟩
  intro y hy hy2
  have hya : y = a.id := by simpa using hy2
  exact hnotin (hya ▸ hy)

theorem uniqueIds_filter {l : List WatchlistItem} (p : WatchlistItem → Bool)
    (h : uniqueIds l) : uniqueIds (l.filter p) := by
  unfold uniqueIds at h ⊢
  exact ((List.filter_sublist l).map (fun x => x.id)).nodup h

theorem step_uniqueIds (op : WOp) (st : SyncState) (h : uniqueIds st.watchlist) :
    uniqueIds ((step op st).watchlist) := by
  cases op with
  | add m now =>
    by_cases hc : st.watchlist.any (fun item => item.id == m.id) = true
    · simpa [step, addToWatchlist, hc] using h
    · rw [Bool.not_eq_true] at hc
      simpa [step, addToWatchlist, hc] using uniqueIds_append_fresh h hc
  | remove movieId =>
    simpa [step, removeFromWatchlist] using uniqueIds_filter _ h
  | toggle m now =>
    by_cases hc : isInWatchlist m.id st = true
    · simpa [step, toggleWatchlist, hc, removeFromWatchlist] using uniqueIds_filter _ h
    · rw [Bool.not_eq_true] at hc
      by_cases hc2 : st.watchlist.any (fun item => item.id == m.id) = true
      · simpa [step, toggleWatchlist, hc, addToWatchlist, hc2] using h
      · rw [Bool.not_eq_true] at hc2
        simpa [step, toggleWatchlist, hc, addToWatchlist, hc2] using
          uniqueIds_append_fresh h hc2
  | clear => simp [step, clearWatchlist, uniqueIds]
  | identityChange fetch =>
    cases fetch with
    | ok doc => simpa [step, loadAndMerge] using
        mergeWatchlists_uniqueIds st.store (doc.getD [])
    | failure => simpa [step, loadAndMerge] using h

theorem steps_uniqueIds (ops : List WOp) :
    ∀ st : SyncState, uniqueIds st.watchlist →
      uniqueIds ((ops.foldl (fun s op => step op s) st).watchlist) := by
  induction ops with
  | nil => intro st h; simpa using h
  | cons op ops ih => intro st h; exact ih (step op st) (step_uniqueIds op st h)

/-! ## Claim theorems: watchlist synchronizer -/

/-- C1 (confirmed): local priority in merge.  For every local watchlist `L`
(with the unique-id invariant) and remote `R`, whenever some id occurs in both
(`a ∈ L`, `b ∈ R`, `b.id = a.id`, payloads possibly different), the merge
contains `a` — L's entry, with L's `addedAt` — and every entry of the merge
with that id IS `a` (never R's copy); and the spec's concrete scenario:
`merge([{id:1,addedAt:100}], [{id:1,addedAt:50},{id:2,addedAt:200}]) =
[{id:2,addedAt:200},{id:1,addedAt:100}]`. -/
theorem merge_local_priority (L R : List WatchlistItem) (a b : WatchlistItem)
    (hL : uniqueIds L) (ha : a ∈ L) (_hb : b ∈ R) (_hid : b.id = a.id) :
    a ∈ mergeWatchlists L R ∧
      (∀ x ∈ mergeWatchlists L R, x.id = a.id → x = a) ∧
      mergeWatchlists [⟨1, 0, 100⟩] [⟨1, 7, 50⟩, ⟨2, 0, 200⟩] =
        [⟨2, 0, 200⟩, ⟨1, 0, 100⟩] := by
  have hfold : L.foldl mapSet [] = L := foldl_mapSet_eq_self hL
  refine ⟨?_, ?_, by decide⟩
  · rw [mem_mergeWatchlists, hfold]
    exact addCloud_subset_left R L a ha
  · intro x hx hxid
    rw [mem_mergeWatchlists, hfold] at hx
    rcases addCloud_mem_elim R L x hx with hxL | ⟨_, hhas⟩
    · exact List.inj_on_of_nodup_map hL hxL ha hxid
    · exfalso
      have : mapHas L x.id = true := mapHas_iff.mpr ⟨a, ha, hxid.symm⟩
      rw [this] at hhas
      exact Bool.noConfusion hhas

theorem merge_local_priority_witness :
    (⟨1, 0, 100⟩ : WatchlistItem) ∈
      mergeWatchlists [⟨1, 0, 100⟩] [⟨1, 7, 50⟩, ⟨2, 0, 200⟩] :=
  (merge_local_priority [⟨1, 0, 100⟩] [⟨1, 7, 50⟩, ⟨2, 0, 200⟩]
    ⟨1, 0, 100⟩ ⟨1, 7, 50⟩ (by decide) (by decide) (by decide) (by decide)).1

/-- C2 (counterexample): the claim that the exposed watchlist is sorted by
`addedAt` descending after any operation sequence fails: starting from the
empty state, `add` (id 1 at t=100) then `add` (id 2 at t=200) leaves the
in-memory list in insertion order `[t=100, t=200]`, which is ascending. -/
theorem watchlist_order_cex :
    ¬ sortedDesc ((step (WOp.add ⟨2, 0⟩ 200)
      (step (WOp.add ⟨1, 0⟩ 100) ⟨[], [], false⟩)).watchlist) := by
  decide

/-- C2 (amended): the output of merge — and hence the watchlist right after an
identity-change sync — is sorted by `addedAt` descending, stably (a pair
already in comparator order, in particular one with equal timestamps, keeps
its relative order through the canonical sort); but the local mutations do not
re-sort: `add` on an absent id appends the new entry at the end. -/
theorem watchlist_order_amended :
    (∀ A B, sortedDesc (mergeWatchlists A B)) ∧
    (∀ st doc, sortedDesc ((step (WOp.identityChange (FetchResult.ok doc)) st).watchlist)) ∧
    (∀ (l : List WatchlistItem) (a b : WatchlistItem),
      List.Sublist [a, b] l → b.addedAt ≤ a.addedAt →
        List.Sublist [a, b] (sortByAddedAtDesc l)) ∧
    (∀ st m now, st.watchlist.any (fun item => item.id == m.id) = false →
      (step (WOp.add m now) st).watchlist = st.watchlist ++ [mkItem m now]) := by
  refine ⟨mergeWatchlists_sortedDesc, ?_, ?_, ?_⟩
  · intro st doc
    simpa [step, loadAndMerge] using mergeWatchlists_sortedDesc st.store (doc.getD [])
  · intro l a b hsub hle
    exact List.pair_sublist_insertionSort hle hsub
  · intro st m now h
    simp [step, addToWatchlist, h]

theorem watchlist_order_amended_witness :
    List.Sublist [(⟨1, 0, 50⟩ : WatchlistItem), ⟨2, 0, 50⟩]
        (sortByAddedAtDesc [⟨1, 0, 50⟩, ⟨2, 0, 50⟩]) ∧
      (step (WOp.add ⟨1, 0⟩ 100) ⟨[], [], false⟩).watchlist =
        [] ++ [mkItem ⟨1, 0⟩ 100] :=
  ⟨watchlist_order_amended.2.2.1 [⟨1, 0, 50⟩, ⟨2, 0, 50⟩] ⟨1, 0, 50⟩ ⟨2, 0, 50⟩
      (by decide) (by decide),
    watchlist_order_amended.2.2.2 ⟨[], [], false⟩ ⟨1, 0⟩ 100 (by decide)⟩

/-- C3 (confirmed): unique ids.  `merge(A, B)` has unique ids for all inputs;
every synchronizer operation preserves the at-most-one-entry-per-id invariant
(so every state reachable from a unique-id initialization has unique ids); and
`add` with an id already present leaves the list unchanged. -/
theorem unique_ids_invariant :
    (∀ A B, uniqueIds (mergeWatchlists A B)) ∧
    (∀ op st, uniqueIds st.watchlist → uniqueIds ((step op st).watchlist)) ∧
    (∀ (l : List WatchlistItem), uniqueIds l → ∀ ops : List WOp,
      uniqueIds ((ops.foldl (fun s op => step op s)
        (⟨l, l, false⟩ : SyncState)).watchlist)) ∧
    (∀ st m now, isInWatchlist m.id st = true →
      (step (WOp.add m now) st).watchlist = st.watchlist) := by
  refine ⟨mergeWatchlists_uniqueIds, step_uniqueIds, ?_, ?_⟩
  · intro l hl ops
    exact steps_uniqueIds ops ⟨l, l, false⟩ hl
  · intro st m now h
    rw [isInWatchlist] at h
    simp [step, addToWatchlist, h]

theorem unique_ids_invariant_witness :
    uniqueIds ((step (WOp.add ⟨1, 0⟩ 300) ⟨[⟨1, 0, 100⟩], [⟨1, 0, 100⟩], false⟩).watchlist) ∧
      (step (WOp.add ⟨1, 0⟩ 300) ⟨[⟨1, 0, 100⟩], [⟨1, 0, 100⟩], false⟩).watchlist =
        [⟨1, 0, 100⟩] :=
  ⟨unique_ids_invariant.2.1 (WOp.add ⟨1, 0⟩ 300) ⟨[⟨1, 0, 100⟩], [⟨1, 0, 100⟩], false⟩
      (by decide),
    unique_ids_invariant.2.2.2 ⟨[⟨1, 0, 100⟩], [⟨1, 0, 100⟩], false⟩ ⟨1, 0⟩ 300 (by decide)⟩

/-- C4 (confirmed): merge idempotence.  `merge(merge(A,B), B) = merge(A,B)`
for all inputs, and for every watchlist `X` satisfying the unique-id
invariant, `merge(X, X)` equals `X` up to the canonical `addedAt`-descending
sort. -/
theorem merge_idempotent :
    (∀ A B, mergeWatchlists (mergeWatchlists A B) B = mergeWatchlists A B) ∧
    (∀ X, uniqueIds X → mergeWatchlists X X = sortByAddedAtDesc X) := by
  constructor
  · intro A B
    have hM : uniqueIds (mergeWatchlists A B) := mergeWatchlists_uniqueIds A B
    have hfold : (mergeWatchlists A B).foldl mapSet [] = mergeWatchlists A B :=
      foldl_mapSet_eq_self hM
    have hBin : ∀ b ∈ B, mapHas (mergeWatchlists A B) b.id = true := by
      intro b hb
      rw [mapHas_of_perm (mergeWatchlists_perm A B)]
      exact addCloud_has_of_mem B (A.foldl mapSet []) b hb
    have hself : addCloud (mergeWatchlists A B) B = mergeWatchlists A B :=
      addCloud_eq_self B (mergeWatchlists A B) hBin
    show sortByAddedAtDesc (addCloud ((mergeWatchlists A B).foldl mapSet []) B) =
      mergeWatchlists A B
    rw [hfold, hself]
    exact List.Sorted.insertionSort_eq (mergeWatchlists_sortedDesc A B)
  · intro X hX
    have hXin : ∀ b ∈ X, mapHas X b.id = true :=
      fun b hb => mapHas_iff.mpr ⟨b, hb, rfl⟩
    show sortByAddedAtDesc (addCloud (X.foldl mapSet []) X) = sortByAddedAtDesc X
    rw [foldl_mapSet_eq_self hX, addCloud_eq_self X X hXin]

theorem merge_idempotent_witness :
    mergeWatchlists [(⟨1, 0, 100⟩ : WatchlistItem), ⟨2, 0, 200⟩]
        [⟨1, 0, 100⟩, ⟨2, 0, 200⟩] =
      sortByAddedAtDesc [⟨1, 0, 100⟩, ⟨2, 0, 200⟩] :=
  merge_idempotent.2 [⟨1, 0, 100⟩, ⟨2, 0, 200⟩] (by decide)

/-- C5 (counterexample): initialization does not treat an unparsable blob as
empty — the `useState` initializer is `stored ? JSON.parse(stored) : []` with
no try/catch, so on a malformed blob the parse exception escapes instead of
producing the empty watchlist. -/
theorem init_unparsable_cex :
    initWatchlist (some StoredBlob.malformed) = Except.error () ∧
      initWatchlist (some StoredBlob.malformed) ≠ Except.ok [] :=
  ⟨rfl, fun h => by simp [initWatchlist, jsonParse] at h⟩

/-- C5 (amended): the watchlist is initialized by reading the local store; an
absent blob initializes to the empty list, a parseable blob to its parsed
value (with no shape validation), and on an unparsable blob the `JSON.parse`
exception propagates out of initialization. -/
theorem init_amended :
    initWatchlist none = Except.ok [] ∧
      (∀ l, initWatchlist (some (StoredBlob.parseable l)) = Except.ok l) ∧
      initWatchlist (some StoredBlob.malformed) = Except.error () :=
  ⟨rfl, fun _ => rfl, rfl⟩

/-- C6 (counterexample): when the remote fetch fails during the
identity-change sync, the code's `catch` exits before any merge: with local
store and memory `[{id:1,t:100},{id:2,t:200}]` (insertion order), the state
after a failed sync is NOT `merge(local, []) = [{id:2},{id:1}]` — neither in
memory nor in the local store. -/
theorem sync_failure_cex :
    (step (WOp.identityChange FetchResult.failure)
        ⟨[⟨1, 0, 100⟩, ⟨2, 0, 200⟩], [⟨1, 0, 100⟩, ⟨2, 0, 200⟩], true⟩).watchlist ≠
      mergeWatchlists [⟨1, 0, 100⟩, ⟨2, 0, 200⟩] [] ∧
    (step (WOp.identityChange FetchResult.failure)
        ⟨[⟨1, 0, 100⟩, ⟨2, 0, 200⟩], [⟨1, 0, 100⟩, ⟨2, 0, 200⟩], true⟩).store ≠
      mergeWatchlists [⟨1, 0, 100⟩, ⟨2, 0, 200⟩] [] := by
  decide

/-- C6 (amended): on a failed remote fetch the error is only logged and the
local data is kept untouched — no merge happens, the in-memory state and the
local store stay exactly as they were — and `syncing` is still cleared; only
a successful fetch (in particular one finding no document, where the remote
is treated as empty) merges and installs `merge(local, remote)` as the new
baseline in memory and in the local store, clearing `syncing`. -/
theorem sync_failure_amended :
    (∀ st, (step (WOp.identityChange FetchResult.failure) st).watchlist = st.watchlist ∧
      (step (WOp.identityChange FetchResult.failure) st).store = st.store ∧
      (step (WOp.identityChange FetchResult.failure) st).syncing = false) ∧
    (∀ st, (step (WOp.identityChange (FetchResult.ok none)) st).watchlist =
        mergeWatchlists st.store [] ∧
      (step (WOp.identityChange (FetchResult.ok none)) st).store =
        mergeWatchlists st.store [] ∧
      (step (WOp.identityChange (FetchResult.ok none)) st).syncing = false) :=
  ⟨fun _ => ⟨rfl, rfl, rfl⟩, fun _ => ⟨rfl, rfl, rfl⟩⟩

/-- C9 (counterexample): `toggle(x); toggle(x)` does not return the watchlist
to its prior state even modulo the re-added entry's `addedAt`: from
`[{id:1,t:100},{id:2,t:200}]`, toggling id 1 twice yields id order `[2, 1]`,
not the prior `[1, 2]` — the re-added entry moves to the end, so no choice of
timestamp restores the prior list. -/
theorem toggle_involution_cex :
    ((step (WOp.toggle ⟨1, 0⟩ 400)
        (step (WOp.toggle ⟨1, 0⟩ 300)
          ⟨[⟨1, 0, 100⟩, ⟨2, 0, 200⟩], [⟨1, 0, 100⟩, ⟨2, 0, 200⟩], false⟩)).watchlist.map
      (fun x => x.id)) = [2, 1] ∧
    ([(⟨1, 0, 100⟩ : WatchlistItem), ⟨2, 0, 200⟩].map (fun x => x.id)) = [1, 2] := by
  decide

/-- C9 (amended): the first toggle decides from the in-memory state at call
time, removing and reporting "removed" (`false`) when the id is present and
adding with a fresh `addedAt` and reporting "added" (`true`) when absent.
`toggle(x); toggle(x)` restores the watchlist exactly when `x` was absent;
when `x` was present, the double toggle yields the prior entries without
`x`'s id followed by a fresh copy of `x` appended at the end — the same
entries modulo the re-added entry's `addedAt` and position, but not the
prior list order. -/
theorem toggle_involution_amended :
    (∀ st m now1 now2, isInWatchlist m.id st = false →
      (toggleWatchlist m now1 st).1 = true ∧
      (toggleWatchlist m now2 (toggleWatchlist m now1 st).2).1 = false ∧
      (toggleWatchlist m now2 (toggleWatchlist m now1 st).2).2.watchlist =
        st.watchlist) ∧
    (∀ st m now1 now2, isInWatchlist m.id st = true →
      (toggleWatchlist m now1 st).1 = false ∧
      (toggleWatchlist m now2 (toggleWatchlist m now1 st).2).1 = true ∧
      (toggleWatchlist m now2 (toggleWatchlist m now1 st).2).2.watchlist =
        st.watchlist.filter (fun item => item.id != m.id) ++ [mkItem m now2]) := by
  constructor
  · intro st m now1 now2 h
    have hany : st.watchlist.any (fun item => item.id == m.id) = false := h
    have hall : ∀ x ∈ st.watchlist, ¬(x.id = m.id) := by
      intro x hx hxm
      have : st.watchlist.any (fun item => item.id == m.id) = true :=
        List.any_eq_true.mpr ⟨x, hx, beq_iff_eq.mpr hxm⟩
      rw [this] at hany; exact Bool.noConfusion hany
    have h1 : toggleWatchlist m now1 st =
        (true, ⟨st.watchlist ++ [mkItem m now1], st.watchlist ++ [mkItem m now1],
          st.syncing⟩) := by
      simp [toggleWatchlist, h, addToWatchlist, hany]
    have h2has : isInWatchlist m.id
        (⟨st.watchlist ++ [mkItem m now1], st.watchlist ++ [mkItem m now1],
          st.syncing⟩ : SyncState) = true := by
      simp [isInWatchlist, mkItem]
    refine ⟨by rw [h1], ?_, ?_⟩
    · rw [h1]
      simp [toggleWatchlist, h2has]
    · rw [h1]
      simp only [toggleWatchlist, h2has, if_true, removeFromWatchlist,
        List.filter_append]
      have hfilter : st.watchlist.filter (fun item => item.id != m.id) =
          st.watchlist := by
        apply List.filter_eq_self.mpr
        intro x hx
        simpa using hall x hx
      have hfilter2 : ([mkItem m now1].filter (fun item => item.id != m.id)) = [] := by
        simp [mkItem]
      rw [hfilter, hfilter2, List.append_nil]
  · intro st m now1 now2 h
    have h1 : toggleWatchlist m now1 st =
        (false, ⟨st.watchlist.filter (fun item => item.id != m.id),
          st.watchlist.filter (fun item => item.id != m.id), st.syncing⟩) := by
      simp [toggleWatchlist, h, removeFromWatchlist]
    have h2has : isInWatchlist m.id
        (⟨st.watchlist.filter (fun item => item.id != m.id),
          st.watchlist.filter (fun item => item.id != m.id),
          st.syncing⟩ : SyncState) = false := by
      rw [isInWatchlist]
      rw [List.any_eq_false]
      intro x hx
      have := List.of_mem_filter hx
      simpa using this
    have h2any : (st.watchlist.filter (fun item => item.id != m.id)).any
        (fun item => item.id == m.id) = false := h2has
    refine ⟨by rw [h1], ?_, ?_⟩
    · rw [h1]
      simp [toggleWatchlist, h2has]
    · rw [h1]
      simp [toggleWatchlist, h2has, addToWatchlist, h2any]

theorem toggle_involution_amended_witness :
    ((toggleWatchlist ⟨3, 0⟩ 300 ⟨[⟨1, 0, 100⟩], [⟨1, 0, 100⟩], false⟩).1 = true ∧
      (toggleWatchlist ⟨3, 0⟩ 400
        (toggleWatchlist ⟨3, 0⟩ 300 ⟨[⟨1, 0, 100⟩], [⟨1, 0, 100⟩], false⟩).2).1 = false ∧
      (toggleWatchlist ⟨3, 0⟩ 400
        (toggleWatchlist ⟨3, 0⟩ 300
          ⟨[⟨1, 0, 100⟩], [⟨1, 0, 100⟩], false⟩).2).2.watchlist = [⟨1, 0, 100⟩]) ∧
    ((toggleWatchlist ⟨1, 0⟩ 300 ⟨[⟨1, 0, 100⟩], [⟨1, 0, 100⟩], false⟩).1 = false ∧
      (toggleWatchlist ⟨1, 0⟩ 400
        (toggleWatchlist ⟨1, 0⟩ 300 ⟨[⟨1, 0, 100⟩], [⟨1, 0, 100⟩], false⟩).2).1 = true ∧
      (toggleWatchlist ⟨1, 0⟩ 400
        (toggleWatchlist ⟨1, 0⟩ 300
          ⟨[⟨1, 0, 100⟩], [⟨1, 0, 100⟩], false⟩).2).2.watchlist =
        ([⟨1, 0, 100⟩] : List WatchlistItem).filter (fun item => item.id != (1 : Int)) ++
          [mkItem ⟨1, 0⟩ 400]) :=
  ⟨toggle_involution_amended.1 ⟨[⟨1, 0, 100⟩], [⟨1, 0, 100⟩], false⟩ ⟨3, 0⟩ 300 400
      (by decide),
    toggle_involution_amended.2 ⟨[⟨1, 0, 100⟩], [⟨1, 0, 100⟩], false⟩ ⟨1, 0⟩ 300 400
      (by decide)⟩

/-! ## Claim theorems: recommendation engine -/

/-- Item 1 of the spec's two-item catalog scenario. -/
def scenarioItem1 : Movie :=
  ⟨1, "A", ["action"], [], 9, "en", 2021, 110, [], "d", []⟩

/-- Item 2 of the spec's two-item catalog scenario. -/
def scenarioItem2 : Movie :=
  ⟨2, "B", ["drama"], [], 6, "en", 1990, 110, [], "d", ["x"]⟩

/-- The scenario filters `{genres: ["action"]}` with all other filters
inactive. -/
def scenarioFilters : RecommendationFilters :=
  ⟨["action"], [], 0, "all", 0, 3000, RuntimeFilter.any, ""⟩

theorem genreFilterPass_iff {f : RecommendationFilters} {m : Movie} :
    genreFilterPass f m = true ↔ ∃ g ∈ m.genre, strToLower g ∈ f.genres := by
  simp [genreFilterPass, List.any_eq_true]

theorem mem_ite_single {c : Prop} [Decidable c] {s t : String} :
    s ∈ (if c then [t] else []) ↔ c ∧ s = t := by
  by_cases hc : c <;> simp [hc]

/-- C7 (counterexample): the genre hard filter is not case-insensitive on the
selected side.  With selected genres `["ACTION"]` and a candidate whose genre
list is `["ACTION"]` — the selected genre equals a candidate genre even
literally, hence also case-insensitively — the filter drops the candidate
(the code lowercases only the candidate's genre and then looks it up among
the selected genres verbatim), and `getRecommendations` returns nothing. -/
theorem genre_filter_ci_cex :
    (∃ sg ∈ (["ACTION"] : List String), ∃ g ∈ (["ACTION"] : List String),
        strToLower sg = strToLower g) ∧
    genreFilterPass ⟨["ACTION"], [], 0, "all", 0, 3000, RuntimeFilter.any, ""⟩
        ⟨1, "A", ["ACTION"], [], 9, "en", 2021, 110, [], "d", []⟩ = false ∧
    getRecommendations [⟨1, "A", ["ACTION"], [], 9, "en", 2021, 110, [], "d", []⟩] 2024
        ⟨["ACTION"], [], 0, "all", 0, 3000, RuntimeFilter.any, ""⟩ = [] := by
  refine ⟨⟨"ACTION", by simp, "ACTION", by simp, rfl⟩, by decide, ?_⟩
  with_unfolding_all decide

/-- C7 (amended): a candidate survives the genre filter iff some genre in its
list, lowercased, occurs verbatim among the selected genres; when no genres
are selected the genre stage is skipped and every candidate is kept; matching
is case-insensitive only under the proviso that the selected genres are
already lowercase. -/
theorem genre_filter_amended :
    (∀ f m, genreFilterPass f m = true ↔ ∃ g ∈ m.genre, strToLower g ∈ f.genres) ∧
    (∀ f cat, f.genres = [] → hardFilter f cat = hardFilterRest f cat) ∧
    (∀ f m, (∀ sg ∈ f.genres, strToLower sg = sg) →
      (genreFilterPass f m = true ↔
        ∃ sg ∈ f.genres, ∃ g ∈ m.genre, strToLower sg = strToLower g)) := by
  refine ⟨fun f m => genreFilterPass_iff, ?_, ?_⟩
  · intro f cat h
    simp [hardFilter, h]
  · intro f m hlow
    rw [genreFilterPass_iff]
    constructor
    · rintro ⟨g, hg, hmem⟩
      exact ⟨strToLower g, hmem, g, hg, hlow _ hmem⟩
    · rintro ⟨sg, hsg, g, hg, heq⟩
      have hsglow : sg = strToLower g := by rw [← hlow sg hsg, heq]
      exact ⟨g, hg, hsglow ▸ hsg⟩

theorem genre_filter_amended_witness :
    genreFilterPass scenarioFilters scenarioItem1 = true :=
  (genre_filter_amended.2.2 scenarioFilters scenarioItem1 (by decide)).mpr
    ⟨"action", by decide, "action", by decide, rfl⟩

/-- C8 (confirmed): match reasons.  For every filter, clock and candidate,
each of the five labels is present in `matchReasons` exactly under its source
condition — "Genre match" iff the weighted genre subscore exceeds 0.15,
"Mood match" iff the weighted mood subscore exceeds 0.12, "Highly rated" iff
rating ≥ 8.5, "Award winning" iff the awards list is nonempty, "Recent
release" iff the release year is ≥ 2020 — and the labels always appear in the
fixed evaluation order (the reason list is a sublist of the five labels in
order).  In the spec's two-item scenario with `{genres: ["action"]}` the
result is exactly item 1, and its reasons include "Genre match", "Highly
rated" and "Recent release". -/
theorem match_reasons_spec :
    (∀ f cy m,
      (("Genre match" ∈ (scoreMovie f cy m).matchReasons) ↔
        calculateGenreScore m f.genres * (3/10) > 15/100) ∧
      (("Mood match" ∈ (scoreMovie f cy m).matchReasons) ↔
        calculateMoodScore m f.moods * (25/100) > 12/100) ∧
      (("Highly rated" ∈ (scoreMovie f cy m).matchReasons) ↔ (85/10 : ℚ) ≤ m.rating) ∧
      (("Award winning" ∈ (scoreMovie f cy m).matchReasons) ↔ m.awards ≠ []) ∧
      (("Recent release" ∈ (scoreMovie f cy m).matchReasons) ↔
        (2020 : Int) ≤ m.release_year) ∧
      (scoreMovie f cy m).matchReasons.Sublist
        ["Genre match", "Mood match", "Highly rated", "Award winning",
          "Recent release"]) ∧
    ((getRecommendations [scenarioItem1, scenarioItem2] 2024 scenarioFilters).map
        (fun sm => sm.movie.id) = [1]) ∧
    (∀ sm ∈ getRecommendations [scenarioItem1, scenarioItem2] 2024 scenarioFilters,
      "Genre match" ∈ sm.matchReasons ∧ "Highly rated" ∈ sm.matchReasons ∧
        "Recent release" ∈ sm.matchReasons) := by
  refine ⟨?_, ?_, ?_⟩
  · intro f cy m
    refine ⟨?_, ?_, ?_, ?_, ?_, ?_⟩
    · simp [scoreMovie, List.mem_append, mem_ite_single]
    · simp [scoreMovie, List.mem_append, mem_ite_single]
    · simp [scoreMovie, List.mem_append, mem_ite_single]
    · simp [scoreMovie, List.mem_append, mem_ite_single, List.length_pos]
    · simp [scoreMovie, List.mem_append, mem_ite_single]
    · simp only [scoreMovie]
      split_ifs <;> decide
  · with_unfolding_all decide
  · with_unfolding_all decide

set_option maxRecDepth 8000 in
theorem match_reasons_spec_witness :
    "Genre match" ∈ (scoreMovie scenarioFilters 2024 scenarioItem1).matchReasons ∧
      "Highly rated" ∈ (scoreMovie scenarioFilters 2024 scenarioItem1).matchReasons ∧
      "Recent release" ∈ (scoreMovie scenarioFilters 2024 scenarioItem1).matchReasons :=
  match_reasons_spec.2.2 (scoreMovie scenarioFilters 2024 scenarioItem1)
    (by with_unfolding_all decide)

/-- C10 (confirmed): when no moods are selected, the mood-match fraction
defaults to 1, the weighted mood subscore is 0.25 > 0.12, and therefore every
candidate returned by `getRecommendations` carries "Mood match". -/
theorem mood_match_unconditional (cat : List Movie) (cy : Int)
    (f : RecommendationFilters) (hmoods : f.moods = []) :
    ∀ sm ∈ getRecommendations cat cy f, "Mood match" ∈ sm.matchReasons := by
  intro sm hsm
  simp only [getRecommendations] at hsm
  have h1 : sm ∈ ((hardFilter f cat).map (scoreMovie f cy)).insertionSort byScoreDesc :=
    List.take_subset 10 _ hsm
  have h2 : sm ∈ (hardFilter f cat).map (scoreMovie f cy) :=
    (List.perm_insertionSort byScoreDesc _).mem_iff.mp h1
  rw [List.mem_map] at h2
  obtain ⟨m, _, rfl⟩ := h2
  have hgt : calculateMoodScore m f.moods * (25/100 : ℚ) > 12/100 := by
    rw [hmoods]
    simp only [calculateMoodScore, List.length_nil]
    norm_num
  simp [scoreMovie, hgt]

set_option maxRecDepth 8000 in
theorem mood_match_unconditional_witness :
    "Mood match" ∈ (scoreMovie scenarioFilters 2024 scenarioItem1).matchReasons :=
  mood_match_unconditional [scenarioItem1, scenarioItem2] 2024 scenarioFilters rfl
    (scoreMovie scenarioFilters 2024 scenarioItem1) (by with_unfolding_all decide)

end CineSense
